import Mathlib

/-!
Shallow embedding of the sprint-bot core (src/index.js) and proofs about it.

The bot keeps a mutable map `activeSprints : roomId -> Sprint` in memory,
mirrored to a durable `ActiveSprint` collection, plus durable collections for
daily stats, personal goals, scheduled sprints and a blacklist.  JavaScript
objects keyed by WhatsApp ids (which contain `@`, hence are never array-index
keys) enumerate in insertion order, so we model them as association lists in
insertion order with unique keys.  JavaScript numbers produced by `parseInt`
are integers, modelled as `Int` (`parseInt` failure, i.e. `NaN`, is modelled
as `none`).  Timestamps (`Date.now()`, `endsAt`) are milliseconds, modelled
as `Int`.
-/

namespace SprintBot

/-- One sprint participant: display name and logged word count
(`{ name, words }` in the source).  `words` is an `Int` because the source
stores whatever `parseInt` produced, which can be negative. -/
structure Participant where
  name : String
  words : Int
deriving DecidableEq, Repr

/-- An active sprint for one room (`activeSprints[chatId]` in the source):
duration in minutes, absolute end timestamp, and the participants object in
insertion order. -/
structure Sprint where
  duration : Int
  endsAt : Int
  participants : List (String × Participant)
deriving DecidableEq, Repr

/-- The in-memory `activeSprints` object: room id to sprint, insertion order. -/
abbrev Store := List (String × Sprint)

/-- A durable `ActiveSprint` document (crash-recovery snapshot of a sprint). -/
structure SprintSnapshot where
  groupId : String
  duration : Int
  endsAt : Int
  participants : List (String × Participant)
deriving DecidableEq, Repr

/-- The durable `ActiveSprint` collection, in document order. -/
abbrev DB := List SprintSnapshot

/-- Lookup in a JavaScript-object-as-association-list (`obj[k]`). -/
def getAssoc {α : Type} (k : String) : List (String × α) → Option α
  | [] => none
  | (k2, v) :: rest => if k2 = k then some v else getAssoc k rest

/-- Assignment `obj[k] = v`: overwrite in place if the key exists, else append
(JavaScript objects keep the original insertion position on overwrite). -/
def setAssoc {α : Type} (k : String) (v : α) : List (String × α) → List (String × α)
  | [] => [(k, v)]
  | (k2, v2) :: rest => if k2 = k then (k2, v) :: rest else (k2, v2) :: setAssoc k v rest

/-- Deletion `delete obj[k]`: remove the (unique) entry with key `k`. -/
def delAssoc {α : Type} (k : String) : List (String × α) → List (String × α)
  | [] => []
  | (k2, v2) :: rest => if k2 = k then rest else (k2, v2) :: delAssoc k rest

/-- Result of `startSprintSession`: whether it started, the updated memory and
durable collection, and the one-shot timers armed (room, delay in ms). -/
structure StartResult where
  started : Bool
  mem : Store
  db : DB
  timers : List (String × Int)
deriving DecidableEq, Repr

/-- Embedding of `startSprintSession(chatId, duration)` (src/index.js:451-477):
returns `false` immediately if the room already has a sprint; otherwise stores
`{ duration, endsAt, participants: {} }` in memory, creates the durable
`ActiveSprint` snapshot, and arms a one-shot timer for `duration` minutes. -/
def startSprintSession (now : Int) (mem : Store) (db : DB) (chatId : String)
    (duration : Int) : StartResult :=
  match getAssoc chatId mem with
  | some _ => ⟨false, mem, db, []⟩
  | none =>
    let endTime := now + duration * 60000
    ⟨true, setAssoc chatId ⟨duration, endTime, []⟩ mem,
      db ++ [⟨chatId, duration, endTime, []⟩], [(chatId, duration * 60000)]⟩

/-- Reply of the `!sprint` command handler. -/
inductive SprintCmdReply
  | usage
  | alreadyRunning
  | started
deriving DecidableEq, Repr

/-- Result of the `!sprint` command handler. -/
structure SprintCmdResult where
  reply : SprintCmdReply
  mem : Store
  db : DB
  timers : List (String × Int)
deriving DecidableEq, Repr

/-- Embedding of the `!sprint` handler (src/index.js:699-704): rejects a
missing or out-of-range minute count (`isNaN(m) || m <= 0 || m > 180`),
replies "Running." when the room already has a sprint, else starts one. -/
def sprintCmd (now : Int) (mem : Store) (db : DB) (chatId : String)
    (m : Option Int) : SprintCmdResult :=
  match m with
  | none => ⟨.usage, mem, db, []⟩
  | some m =>
    if m ≤ 0 ∨ 180 < m then ⟨.usage, mem, db, []⟩
    else if (getAssoc chatId mem).isSome then ⟨.alreadyRunning, mem, db, []⟩
    else
      let r := startSprintSession now mem db chatId m
      ⟨.started, r.mem, r.db, r.timers⟩

/-- Outcome of the `!wc` handler: no sprint in the room, invalid (`NaN`)
amount, or logged with the participant's new total. -/
inductive WcOutcome
  | noSprint
  | invalid
  | logged (total : Int) (add : Bool)
deriving DecidableEq, Repr

/-- Update the `ActiveSprint` document for `gid` with new participants
(`ActiveSprint.updateOne({ groupId }, { $set: { participants } })`); a no-op
when no document matches. -/
def dbSetParticipants (gid : String) (ps : List (String × Participant)) : DB → DB
  | [] => []
  | d :: rest =>
    if d.groupId = gid then ⟨d.groupId, d.duration, d.endsAt, ps⟩ :: rest
    else d :: dbSetParticipants gid ps rest

/-- Embedding of the `!wc` handler (src/index.js:737-755) after parsing:
`c` is the `parseInt` result (`none` = `NaN`), `add` is whether the first
argument was `add`/`+`.  The sole amount check in the source is `isNaN(c)`;
any integer, including a negative one, is accepted.  A first-time participant
is initialised with `{ name, words: 0 }`, then `words += c` (add mode) or
`words = c` (set mode), and the durable snapshot is re-synced. -/
def wcStep (mem : Store) (db : DB) (chatId senderId senderName : String)
    (c : Option Int) (add : Bool) : WcOutcome × Store × DB :=
  match getAssoc chatId mem with
  | none => (.noSprint, mem, db)
  | some s =>
    match c with
    | none => (.invalid, mem, db)
    | some c =>
      let ps0 :=
        match getAssoc senderId s.participants with
        | some _ => s.participants
        | none => setAssoc senderId ⟨senderName, 0⟩ s.participants
      let old := (getAssoc senderId ps0).getD ⟨senderName, 0⟩
      let newWords := if add then old.words + c else c
      let ps1 := setAssoc senderId ⟨old.name, newWords⟩ ps0
      let mem1 := setAssoc chatId ⟨s.duration, s.endsAt, ps1⟩ mem
      (.logged newWords add, mem1, dbSetParticipants chatId ps1 db)

/-- Result of the `!cancel` handler. -/
structure CancelResult where
  mem : Store
  db : DB
  replied : Bool
deriving DecidableEq, Repr

/-- Embedding of the `!cancel` handler (src/index.js:843-845):
`if (activeSprints[chatId]) { delete activeSprints[chatId]; reply }`.
It deletes only the in-memory record; it performs no database operation at
all, so the durable `ActiveSprint` snapshot is left untouched, and on an idle
room it does nothing (no error). -/
def cancelStep (mem : Store) (db : DB) (chatId : String) : CancelResult :=
  match getAssoc chatId mem with
  | some _ => ⟨delAssoc chatId mem, db, true⟩
  | none => ⟨mem, db, false⟩

/-- A leaderboard entry before ranking: `{ ...d, uid: u }` from
`Object.entries(s.participants).map(...)` in the `!finish` handler. -/
structure Entry where
  uid : String
  name : String
  words : Int
deriving DecidableEq, Repr

/-- The participant object flattened to entries in insertion order
(`Object.entries`; participant keys contain `@` so they are never
array-index keys and enumerate in insertion order). -/
def baseEntries (s : Sprint) : List Entry :=
  s.participants.map (fun p => ⟨p.1, p.2.name, p.2.words⟩)

/-- Insert an entry into a list already sorted by `words` descending, after
every strictly larger entry and before the first non-larger one. -/
def insertDesc (x : Entry) : List Entry → List Entry
  | [] => [x]
  | y :: ys => if x.words < y.words then y :: insertDesc x ys else x :: y :: ys

/-- The unique stable sort by `words` descending.  `Array.prototype.sort` with
comparator `(a, b) => b.words - a.words` is required by the language spec to
be stable and to order by the comparator, which determines the output
uniquely; `sortDesc` realises that specification. -/
def sortDesc : List Entry → List Entry
  | [] => []
  | x :: xs => insertDesc x (sortDesc xs)

/-- JavaScript `Math.round(w / d)` for a positive integer `d`: round half
toward positive infinity, i.e. the floor of `w / d + 1 / 2`. -/
def jsRound (w d : Int) : Int :=
  Int.fdiv (2 * w + d) (2 * d)

/-- A displayed leaderboard line: participant, word count and the rate
`Math.round(p.words / s.duration)` printed as WPM. -/
structure LbEntry where
  uid : String
  name : String
  words : Int
  rate : Int
deriving DecidableEq, Repr

/-- Attach the displayed rate to each ranked entry. -/
def mkRates (duration : Int) (l : List Entry) : List LbEntry :=
  l.map (fun e => ⟨e.uid, e.name, e.words, jsRound e.words duration⟩)

/-- A `PersonalGoal` document (the fields the sprint core touches). -/
structure Goal where
  target : Int
  current : Int
  isActive : Bool
deriving DecidableEq, Repr

/-- One goal contribution as performed by the `!finish` handler
(src/index.js:773-774) on the goal found by
`PersonalGoal.findOne({ userId, isActive: true })`: when the goal is active,
add the words, and if the new total reaches the target flip `isActive` to
false and emit the completion announcement (the returned `Bool`); when it is
inactive `findOne` returns nothing and the goal is untouched. -/
def goalApply (g : Goal) (w : Int) : Goal × Bool :=
  if g.isActive then
    let cur := g.current + w
    if g.target ≤ cur then (⟨g.target, cur, false⟩, true)
    else (⟨g.target, cur, true⟩, false)
  else (g, false)

/-- Fold a sequence of sprint contributions into a goal, counting how many
completion announcements were emitted. -/
def goalRun (g : Goal) : List Int → Goal × Nat
  | [] => (g, 0)
  | w :: ws =>
    let r := goalApply g w
    let rest := goalRun r.1 ws
    (rest.1, (if r.2 then 1 else 0) + rest.2)

/-- The goal store: participant id to that participant's goal document. -/
abbrev Goals := List (String × Goal)

/-- Lookup-and-update step of the `!finish` loop for one participant's goal. -/
def goalLookupApply (goals : Goals) (uid : String) (w : Int) : Goals × Bool :=
  match getAssoc uid goals with
  | none => (goals, false)
  | some g =>
    let r := goalApply g w
    (setAssoc uid r.1 goals, r.2)

/-- A durable `DailyStats` upsert performed by `!finish`
(`$inc: { words: p.words }` keyed by user, group and day). -/
structure StatWrite where
  userId : String
  groupId : String
  wordsDelta : Int
deriving DecidableEq, Repr

/-- Delete the first `ActiveSprint` document for a room
(`ActiveSprint.deleteOne({ groupId: chatId })`). -/
def dbDelete (gid : String) : DB → DB
  | [] => []
  | d :: rest => if d.groupId = gid then rest else d :: dbDelete gid rest

/-- Outcome of the `!finish` handler: no sprint, an empty sprint destroyed
with the "Ended. Empty." (no entries) reply, or the ranked results with the
mention list. -/
inductive FinishOutcome
  | noSprint
  | empty
  | results (leaderboard : List LbEntry) (mentions : List String)
deriving DecidableEq, Repr

/-- Result of the `!finish` handler: outcome, updated memory, durable sprint
collection and goal store, the `DailyStats` writes issued (in rank order),
and the participants whose goal-completion announcement was appended. -/
structure FinishResult where
  outcome : FinishOutcome
  mem : Store
  db : DB
  goals : Goals
  stats : List StatWrite
  goalHits : List String
deriving DecidableEq, Repr

/-- The per-participant loop of `!finish` over the ranked entries: write the
stat row, then apply the contribution to the participant's goal. -/
def finishFold (chatId : String) (goals : Goals) :
    List Entry → Goals × List StatWrite × List String
  | [] => (goals, [], [])
  | e :: rest =>
    let r := goalLookupApply goals e.uid e.words
    let t := finishFold chatId r.1 rest
    (t.1, ⟨e.uid, chatId, e.words⟩ :: t.2.1, (if r.2 then [e.uid] else []) ++ t.2.2)

/-- Embedding of the `!finish` handler (src/index.js:757-786): with no sprint
it only replies; with a sprint it ranks `Object.entries(participants)` by the
stable descending sort, and if the ranking is empty destroys the sprint
(memory and durable snapshot) with the no-entries reply and no stat writes;
otherwise it writes one incremental stat row per participant, applies each
word count to that participant's active goal (announcing completions), then
destroys the sprint and returns the leaderboard with rates and mentions. -/
def finishStep (mem : Store) (db : DB) (goals : Goals) (chatId : String) :
    FinishResult :=
  match getAssoc chatId mem with
  | none => ⟨.noSprint, mem, db, goals, [], []⟩
  | some s =>
    let l := sortDesc (baseEntries s)
    if l.isEmpty then
      ⟨.empty, delAssoc chatId mem, dbDelete chatId db, goals, [], []⟩
    else
      let t := finishFold chatId goals l
      ⟨.results (mkRates s.duration l) (l.map (·.uid)),
        delAssoc chatId mem, dbDelete chatId db, t.1, t.2.1, t.2.2⟩

/-- One iteration of the restore loop on the in-memory map: a document still
in the future (`doc.endsAt > Date.now()`) is written into `activeSprints`;
an expired one is skipped. -/
def restoreFold (now : Int) (m : Store) (d : SprintSnapshot) : Store :=
  if now < d.endsAt then setAssoc d.groupId ⟨d.duration, d.endsAt, d.participants⟩ m
  else m

/-- Embedding of the startup restore block (src/index.js:377-403), acting on
the whole `ActiveSprint` collection with `activeSprints` initially empty:
every document whose `endsAt` is still in the future is put back in memory
and gets a timer for the remaining `endsAt - now` milliseconds; every
document whose `endsAt` has passed is deleted from the collection, is not
rehydrated, and arms nothing (no message is produced by the block itself). -/
def restoreStep (now : Int) (db : DB) : Store × DB × List (String × Int) :=
  (db.foldl (restoreFold now) [],
    db.filter (fun d => decide (now < d.endsAt)),
    (db.filter (fun d => decide (now < d.endsAt))).map (fun d => (d.groupId, d.endsAt - now)))

/-- A durable `ScheduledSprint` document. -/
structure Sched where
  groupId : String
  startAt : Int
  duration : Int
  createdBy : String
deriving DecidableEq, Repr

/-- A notification emitted by the scheduler sweep for one due row: either the
sprint started (with the creator mention) or it was skipped because the room
already had one. -/
inductive SweepEvent
  | started (gid : String) (createdBy : String)
  | skipped (gid : String)
deriving DecidableEq, Repr

/-- The sweep loop over the due rows, in collection order: attempt
`startSprintSession`; emit `skipped` when it returns false, `started`
otherwise; the row itself is deleted in either case. -/
def sweepDue (now : Int) : List Sched → Store → DB → Store × DB × List SweepEvent
  | [], mem, db => (mem, db, [])
  | r :: rest, mem, db =>
    let res := startSprintSession now mem db r.groupId r.duration
    let ev := if res.started then SweepEvent.started r.groupId r.createdBy
              else SweepEvent.skipped r.groupId
    let t := sweepDue now rest res.mem res.db
    (t.1, t.2.1, ev :: t.2.2)

/-- Embedding of the scheduler sweep (src/index.js:479-496): process every
`ScheduledSprint` row with `startAt <= now` through `sweepDue` and keep only
the rows that were not yet due. -/
def sweepStep (now : Int) (mem : Store) (db : DB) (rows : List Sched) :
    Store × DB × List Sched × List SweepEvent :=
  let t := sweepDue now (rows.filter (fun r => decide (r.startAt ≤ now))) mem db
  (t.1, t.2.1, rows.filter (fun r => decide (now < r.startAt)), t.2.2)

/-- The configured owner identifier (src/index.js:22). -/
def ownerNumber : String := "2347087899166"

/-- Whether `sub` occurs as a prefix of `l`. -/
def startsWithList : List Char → List Char → Bool
  | [], _ => true
  | _ :: _, [] => false
  | a :: as, b :: bs => a = b && startsWithList as bs

/-- Whether `sub` occurs as a contiguous sublist of `l`. -/
def containsSub (sub : List Char) : List Char → Bool
  | [] => startsWithList sub []
  | c :: rest => startsWithList sub (c :: rest) || containsSub sub rest

/-- JavaScript `s.includes(sub)`: substring containment. -/
def strIncludes (s sub : String) : Bool := containsSub sub.data s.data

/-- Embedding of `const isOwner = senderId.includes(OWNER_NUMBER)`
(src/index.js:509): substring containment, not an exact match. -/
def isOwnerSender (senderId : String) : Bool := strIncludes senderId ownerNumber

/-- An admin command as parsed from the message, with the already-resolved
optional target id (`getTargetId`) and `parseInt` results. -/
inductive AdminCmd
  | broadcast (text : String)
  | sysinfo
  | correct (target : Option String) (amount : Option Int) (isSet : Bool)
  | setname (target : Option String) (newName : String)
  | cleanup
  | ban (target : Option String)
  | unban (target : Option String)
  | leave
deriving DecidableEq, Repr

/-- A state-changing action performed by an admin command body.  The bodies
of the commands other than ban/unban act on collections outside the sprint
core (chat transport, `DailyStats` documents), so they are recorded as
emitted actions; ban/unban additionally update the modelled blacklist. -/
inductive AdminAction
  | broadcastAll (text : String)
  | statsChanged (uid : String) (amount : Int) (isSet : Bool)
  | renamedUser (uid : String) (newName : String)
  | cleanupRun
  | leftRoom
deriving DecidableEq, Repr

/-- Result of the admin command block: whether an admin branch ran, the
blacklist afterwards, the actions performed, and the replies sent. -/
structure AdminResult where
  handled : Bool
  blacklist : List String
  actions : List AdminAction
  replies : List String
deriving DecidableEq, Repr

/-- Embedding of the admin command block (src/index.js:542-627): the whole
block is guarded by `if (isOwner)`, where `isOwner` is the substring test on
the sender id; for a sender failing that test none of the branches run — the
message falls through to the regular commands, none of which recognises an
admin command name, so nothing changes and nothing is replied. -/
def adminStep (senderId : String) (blacklist : List String) (cmd : AdminCmd) :
    AdminResult :=
  if isOwnerSender senderId then
    match cmd with
    | .broadcast text =>
      if text = "" then ⟨true, blacklist, [], ["Empty."]⟩
      else ⟨true, blacklist, [.broadcastAll text], ["Broadcasting..."]⟩
    | .sysinfo => ⟨true, blacklist, [], ["System"]⟩
    | .correct none _ _ => ⟨true, blacklist, [], ["Usage"]⟩
    | .correct (some _) none _ => ⟨true, blacklist, [], ["Usage"]⟩
    | .correct (some t) (some a) isSet =>
      ⟨true, blacklist, [.statsChanged t a isSet], ["Done."]⟩
    | .setname none _ => ⟨true, blacklist, [], ["Usage"]⟩
    | .setname (some t) newName =>
      if newName = "" then ⟨true, blacklist, [], ["Usage"]⟩
      else ⟨true, blacklist, [.renamedUser t newName], ["Name set."]⟩
    | .cleanup => ⟨true, blacklist, [.cleanupRun], ["Cleaned"]⟩
    | .ban none => ⟨true, blacklist, [], ["Tag user."]⟩
    | .ban (some t) => ⟨true, blacklist ++ [t], [], ["Banned."]⟩
    | .unban none => ⟨true, blacklist, [], ["Tag user."]⟩
    | .unban (some t) => ⟨true, blacklist.filter (fun u => u ≠ t), [], ["Unbanned."]⟩
    | .leave => ⟨true, blacklist, [.leftRoom], []⟩
  else ⟨false, blacklist, [], []⟩

/-! ### Association-list lemmas -/

theorem getAssoc_setAssoc_self {α : Type} (k : String) (v : α) (l : List (String × α)) :
    getAssoc k (setAssoc k v l) = some v := by
  induction l with
  | nil => simp [getAssoc, setAssoc]
  | cons p rest ih =>
    by_cases h : p.1 = k
    · simp [getAssoc, setAssoc, h]
    · simpa [getAssoc, setAssoc, h] using ih

theorem getAssoc_setAssoc_ne {α : Type} (k k' : String) (v : α) (l : List (String × α))
    (h : k ≠ k') : getAssoc k' (setAssoc k v l) = getAssoc k' l := by
  induction l with
  | nil => simp [getAssoc, setAssoc, h]
  | cons p rest ih =>
    by_cases hp : p.1 = k
    · subst hp
      simp [getAssoc, setAssoc, h]
    · simp only [setAssoc, if_neg hp, getAssoc]
      by_cases hp' : p.1 = k'
      · simp [hp']
      · simpa [hp'] using ih

theorem getAssoc_eq_none_iff {α : Type} (k : String) (l : List (String × α)) :
    getAssoc k l = none ↔ k ∉ l.map Prod.fst := by
  induction l with
  | nil => simp [getAssoc]
  | cons p rest ih =>
    by_cases h : p.1 = k
    · simp [getAssoc, h]
    · simp only [getAssoc, if_neg h, List.map_cons, List.mem_cons, ih]
      constructor
      · intro hk hor
        rcases hor with h1 | h2
        · exact h h1.symm
        · exact hk h2
      · intro hk h2
        exact hk (Or.inr h2)

theorem getAssoc_delAssoc_self {α : Type} (k : String) (l : List (String × α))
    (h : (l.map Prod.fst).Nodup) : getAssoc k (delAssoc k l) = none := by
  induction l with
  | nil => simp [getAssoc, delAssoc]
  | cons p rest ih =>
    rcases List.nodup_cons.mp h with ⟨hp, hrest⟩
    by_cases hk : p.1 = k
    · subst hk
      simp only [delAssoc, if_pos rfl]
      exact (getAssoc_eq_none_iff _ _).mpr hp
    · simp only [delAssoc, if_neg hk, getAssoc, if_neg hk]
      exact ih hrest

theorem setAssoc_keys_subset {α : Type} (k a : String) (v : α) (l : List (String × α))
    (h : a ∈ (setAssoc k v l).map Prod.fst) : a ∈ l.map Prod.fst ∨ a = k := by
  induction l with
  | nil => simpa [setAssoc] using h
  | cons p rest ih =>
    by_cases hp : p.1 = k
    · simp only [setAssoc, if_pos hp, List.map_cons, List.mem_cons] at h ⊢
      tauto
    · simp only [setAssoc, if_neg hp, List.map_cons, List.mem_cons] at h ⊢
      rcases h with h | h
      · exact Or.inl (Or.inl h)
      · rcases ih h with h' | h'
        · exact Or.inl (Or.inr h')
        · exact Or.inr h'

theorem setAssoc_keys_nodup {α : Type} (k : String) (v : α) (l : List (String × α))
    (h : (l.map Prod.fst).Nodup) : ((setAssoc k v l).map Prod.fst).Nodup := by
  induction l with
  | nil => simp [setAssoc]
  | cons p rest ih =>
    rcases List.nodup_cons.mp h with ⟨hp, hrest⟩
    by_cases hk : p.1 = k
    · simpa [setAssoc, hk, List.nodup_cons] using ⟨by simpa [hk] using hp, hrest⟩
    · simp only [setAssoc, if_neg hk, List.map_cons]
      refine List.nodup_cons.mpr ⟨?_, ?_⟩
      · intro hmem
        rcases setAssoc_keys_subset k p.1 v rest hmem with h' | h'
        · exact hp h'
        · exact hk h'
      · exact ih hrest

/-! ### A specification lemma for the `!wc` handler -/

theorem wcStep_spec (mem : Store) (db : DB) (chatId senderId senderName : String)
    (c : Int) (add : Bool) (s : Sprint) (hs : getAssoc chatId mem = some s) :
    wcStep mem db chatId senderId senderName (some c) add =
      (let oldP := (getAssoc senderId s.participants).getD ⟨senderName, 0⟩
       let ps0 := match getAssoc senderId s.participants with
                  | some _ => s.participants
                  | none => setAssoc senderId ⟨senderName, 0⟩ s.participants
       let nw := if add then oldP.words + c else c
       (WcOutcome.logged nw add,
        setAssoc chatId ⟨s.duration, s.endsAt, setAssoc senderId ⟨oldP.name, nw⟩ ps0⟩ mem,
        dbSetParticipants chatId (setAssoc senderId ⟨oldP.name, nw⟩ ps0) db)) := by
  cases h2 : getAssoc senderId s.participants with
  | none => simp [wcStep, hs, h2, getAssoc_setAssoc_self]
  | some p => simp [wcStep, hs, h2]

/-! ### C1: at most one sprint per room -/

/-- C1: for every room, at most one sprint exists at any instant: while a
sprint exists for a room, any further `!sprint` command fails with the
already-running reply and leaves memory, database and the existing sprint
(in particular its duration) unchanged; concretely, starting with duration
`d1` on an idle room and then starting again with duration `d2` leaves the
room's duration at `d1`. -/
theorem c1_at_most_one_sprint (now now2 : Int) (mem : Store) (db : DB)
    (room : String) (d1 d2 : Int) (hidle : getAssoc room mem = none)
    (hd1a : 0 < d1) (hd1b : d1 ≤ 180) (hd2a : 0 < d2) (hd2b : d2 ≤ 180) :
    (∀ (mem2 : Store) (db2 : DB) (s : Sprint), getAssoc room mem2 = some s →
        sprintCmd now2 mem2 db2 room (some d2) =
          ⟨.alreadyRunning, mem2, db2, []⟩) ∧
    (sprintCmd now mem db room (some d1)).reply = .started ∧
    getAssoc room (sprintCmd now mem db room (some d1)).mem =
      some ⟨d1, now + d1 * 60000, []⟩ ∧
    sprintCmd now2 (sprintCmd now mem db room (some d1)).mem
        (sprintCmd now mem db room (some d1)).db room (some d2) =
      ⟨.alreadyRunning, (sprintCmd now mem db room (some d1)).mem,
        (sprintCmd now mem db room (some d1)).db, []⟩ ∧
    getAssoc room (sprintCmd now2 (sprintCmd now mem db room (some d1)).mem
        (sprintCmd now mem db room (some d1)).db room (some d2)).mem =
      some ⟨d1, now + d1 * 60000, []⟩ := by
  have hv1 : ¬(d1 ≤ 0 ∨ 180 < d1) := by omega
  have hv2 : ¬(d2 ≤ 0 ∨ 180 < d2) := by omega
  have hgen : ∀ (mem2 : Store) (db2 : DB) (s : Sprint), getAssoc room mem2 = some s →
      sprintCmd now2 mem2 db2 room (some d2) = ⟨.alreadyRunning, mem2, db2, []⟩ := by
    intro mem2 db2 s hs
    simp [sprintCmd, hs, hv2]
  have hr1 : sprintCmd now mem db room (some d1) =
      ⟨.started, setAssoc room ⟨d1, now + d1 * 60000, []⟩ mem,
        db ++ [⟨room, d1, now + d1 * 60000, []⟩], [(room, d1 * 60000)]⟩ := by
    simp [sprintCmd, startSprintSession, hidle, hv1]
  have hmem1 : getAssoc room (sprintCmd now mem db room (some d1)).mem =
      some ⟨d1, now + d1 * 60000, []⟩ := by
    rw [hr1]
    exact getAssoc_setAssoc_self _ _ _
  have hr2 := hgen (sprintCmd now mem db room (some d1)).mem
    (sprintCmd now mem db room (some d1)).db _ hmem1
  refine ⟨hgen, by rw [hr1], hmem1, hr2, ?_⟩
  rw [hr2]
  exact hmem1

/-- Witness for C1 at the claimed instance: `start(room, 20)` on an idle room
followed by `start(room, 15)` fails already-running and the duration stays 20. -/
theorem c1_witness :
    (∀ (mem2 : Store) (db2 : DB) (s : Sprint), getAssoc "room@g.us" mem2 = some s →
        sprintCmd 60000 mem2 db2 "room@g.us" (some 15) =
          ⟨.alreadyRunning, mem2, db2, []⟩) ∧
    (sprintCmd 0 [] [] "room@g.us" (some 20)).reply = .started ∧
    getAssoc "room@g.us" (sprintCmd 0 [] [] "room@g.us" (some 20)).mem =
      some ⟨20, 0 + 20 * 60000, []⟩ ∧
    sprintCmd 60000 (sprintCmd 0 [] [] "room@g.us" (some 20)).mem
        (sprintCmd 0 [] [] "room@g.us" (some 20)).db "room@g.us" (some 15) =
      ⟨.alreadyRunning, (sprintCmd 0 [] [] "room@g.us" (some 20)).mem,
        (sprintCmd 0 [] [] "room@g.us" (some 20)).db, []⟩ ∧
    getAssoc "room@g.us" (sprintCmd 60000 (sprintCmd 0 [] [] "room@g.us" (some 20)).mem
        (sprintCmd 0 [] [] "room@g.us" (some 20)).db "room@g.us" (some 15)).mem =
      some ⟨20, 0 + 20 * 60000, []⟩ :=
  c1_at_most_one_sprint 0 60000 [] [] "room@g.us" 20 15 rfl (by decide) (by decide)
    (by decide) (by decide)

/-! ### C2: cancel and the durable snapshot -/

/-- C2 (code bug): `!cancel` on a room with an active sprint deletes the
in-memory sprint and confirms the cancellation with no stat writes, and on an
idle room it is a no-op — but it issues no database operation, so the durable
`ActiveSprint` snapshot survives, contradicting the snapshot's purpose of
mirroring only running sprints: a later restart (`restoreStep`) rehydrates
the cancelled sprint.  Concretely: after `start(room, 20)` at time 0 and a
cancel, the snapshot is still in the collection and a restart at time 60000
brings the sprint back. -/
theorem c2_cancel_leaves_durable_snapshot :
    cancelStep (sprintCmd 0 [] [] "room@g.us" (some 20)).mem
        (sprintCmd 0 [] [] "room@g.us" (some 20)).db "room@g.us" =
      ⟨[], [⟨"room@g.us", 20, 1200000, []⟩], true⟩ ∧
    (restoreStep 60000 (cancelStep (sprintCmd 0 [] [] "room@g.us" (some 20)).mem
        (sprintCmd 0 [] [] "room@g.us" (some 20)).db "room@g.us").db).1 =
      [("room@g.us", ⟨20, 1200000, []⟩)] ∧
    cancelStep [] [] "room@g.us" = ⟨[], [], false⟩ := by
  decide

/-! ### C3: negative amounts in `!wc` -/

/-- C3 (counterexample): `logWords` with amount `-1` does not fail with an
invalid-amount reply in either mode — the only check in the source is
`isNaN(c)` — and in set mode it stores a negative word count, so the
invariant `wordCount >= 0` is false. -/
theorem c3_counterexample :
    wcStep (sprintCmd 0 [] [] "g@g.us" (some 20)).mem
        (sprintCmd 0 [] [] "g@g.us" (some 20)).db "g@g.us" "p@c.us" "P"
        (some (-1)) false =
      (.logged (-1) false,
        [("g@g.us", ⟨20, 1200000, [("p@c.us", ⟨"P", -1⟩)]⟩)],
        [⟨"g@g.us", 20, 1200000, [("p@c.us", ⟨"P", -1⟩)]⟩]) ∧
    (wcStep (sprintCmd 0 [] [] "g@g.us" (some 20)).mem
        (sprintCmd 0 [] [] "g@g.us" (some 20)).db "g@g.us" "p@c.us" "P"
        (some (-1)) true).1 = .logged (-1) true ∧
    ((-1 : Int) < 0) := by
  decide

/-- C3 (amended): for every active sprint and participant, `logWords` with
any integer amount — negative included — succeeds in both modes (only a
non-numeric amount is rejected): set mode stores exactly the given amount and
add mode adds it to the previous count, so `wordCount >= 0` is not an
invariant. -/
theorem c3_amended_any_integer_accepted (mem : Store) (db : DB)
    (chatId senderId senderName : String) (c : Int) (add : Bool) (s : Sprint)
    (hs : getAssoc chatId mem = some s) :
    (wcStep mem db chatId senderId senderName (some c) add).1 =
      .logged (if add
        then ((getAssoc senderId s.participants).getD ⟨senderName, 0⟩).words + c
        else c) add ∧
    ∃ s', getAssoc chatId (wcStep mem db chatId senderId senderName (some c) add).2.1 =
        some s' ∧
      getAssoc senderId s'.participants =
        some ⟨((getAssoc senderId s.participants).getD ⟨senderName, 0⟩).name,
          if add
          then ((getAssoc senderId s.participants).getD ⟨senderName, 0⟩).words + c
          else c⟩ := by
  rw [wcStep_spec mem db chatId senderId senderName c add s hs]
  exact ⟨rfl, _, getAssoc_setAssoc_self _ _ _, getAssoc_setAssoc_self _ _ _⟩

/-- Witness for C3 (amended): with an active sprint, `!wc -1` succeeds in set
mode and stores `-1`. -/
theorem c3_amended_witness :
    (wcStep [("g@g.us", ⟨20, 1200000, []⟩)] [] "g@g.us" "p@c.us" "P"
        (some (-1)) false).1 =
      .logged (if false
        then ((getAssoc "p@c.us" (Sprint.mk 20 1200000 []).participants).getD ⟨"P", 0⟩).words + (-1)
        else (-1)) false ∧
    ∃ s', getAssoc "g@g.us" (wcStep [("g@g.us", ⟨20, 1200000, []⟩)] [] "g@g.us" "p@c.us" "P"
        (some (-1)) false).2.1 = some s' ∧
      getAssoc "p@c.us" s'.participants =
        some ⟨((getAssoc "p@c.us" (Sprint.mk 20 1200000 []).participants).getD ⟨"P", 0⟩).name,
          if false
          then ((getAssoc "p@c.us" (Sprint.mk 20 1200000 []).participants).getD ⟨"P", 0⟩).words + (-1)
          else (-1)⟩ :=
  c3_amended_any_integer_accepted [("g@g.us", ⟨20, 1200000, []⟩)] [] "g@g.us" "p@c.us" "P"
    (-1) false ⟨20, 1200000, []⟩ rfl

/-! ### C10: set then add -/

/-- C10: for every active sprint and participant, set mode overwrites the
word count and add mode increments it: `logWords(room, p, Set, a)` followed
by `logWords(room, p, Add, b)` leaves the participant's count at `a + b`. -/
theorem c10_set_then_add (mem : Store) (db : DB) (room p nm : String)
    (a b : Int) (s : Sprint) (hs : getAssoc room mem = some s) :
    (wcStep (wcStep mem db room p nm (some a) false).2.1
        (wcStep mem db room p nm (some a) false).2.2 room p nm (some b) true).1 =
      .logged (a + b) true ∧
    ∃ s', getAssoc room (wcStep (wcStep mem db room p nm (some a) false).2.1
        (wcStep mem db room p nm (some a) false).2.2 room p nm (some b) true).2.1 =
        some s' ∧
      ∃ q, getAssoc p s'.participants = some q ∧ q.words = a + b := by
  have h1 := wcStep_spec mem db room p nm a false s hs
  have hm1 : getAssoc room (wcStep mem db room p nm (some a) false).2.1 =
      some ⟨s.duration, s.endsAt,
        setAssoc p ⟨((getAssoc p s.participants).getD ⟨nm, 0⟩).name, a⟩
          (match getAssoc p s.participants with
           | some _ => s.participants
           | none => setAssoc p ⟨nm, 0⟩ s.participants)⟩ := by
    rw [h1]
    exact getAssoc_setAssoc_self _ _ _
  have h2 := wcStep_spec (wcStep mem db room p nm (some a) false).2.1
    (wcStep mem db room p nm (some a) false).2.2 room p nm b true _ hm1
  have hp1 : getAssoc p
      (setAssoc p ⟨((getAssoc p s.participants).getD ⟨nm, 0⟩).name, a⟩
        (match getAssoc p s.participants with
         | some _ => s.participants
         | none => setAssoc p ⟨nm, 0⟩ s.participants)) =
      some ⟨((getAssoc p s.participants).getD ⟨nm, 0⟩).name, a⟩ :=
    getAssoc_setAssoc_self _ _ _
  rw [h2]
  simp only [hp1]
  exact ⟨rfl, _, getAssoc_setAssoc_self _ _ _, _, getAssoc_setAssoc_self _ _ _, rfl⟩

/-- Witness for C10 at the claimed instance: set 500 then add 100 gives 600. -/
theorem c10_witness :
    (wcStep (wcStep [("g@g.us", ⟨20, 99, []⟩)] [] "g@g.us" "p@c.us" "P" (some 500) false).2.1
        (wcStep [("g@g.us", ⟨20, 99, []⟩)] [] "g@g.us" "p@c.us" "P" (some 500) false).2.2
        "g@g.us" "p@c.us" "P" (some 100) true).1 = .logged (500 + 100) true ∧
    ∃ s', getAssoc "g@g.us"
        (wcStep (wcStep [("g@g.us", ⟨20, 99, []⟩)] [] "g@g.us" "p@c.us" "P" (some 500) false).2.1
          (wcStep [("g@g.us", ⟨20, 99, []⟩)] [] "g@g.us" "p@c.us" "P" (some 500) false).2.2
          "g@g.us" "p@c.us" "P" (some 100) true).2.1 = some s' ∧
      ∃ q, getAssoc "p@c.us" s'.participants = some q ∧ q.words = 500 + 100 :=
  c10_set_then_add [("g@g.us", ⟨20, 99, []⟩)] [] "g@g.us" "p@c.us" "P" 500 100
    ⟨20, 99, []⟩ rfl

/-! ### Stable-sort lemmas for the leaderboard -/

theorem insertDesc_perm (x : Entry) (l : List Entry) :
    (insertDesc x l).Perm (x :: l) := by
  induction l with
  | nil => simp [insertDesc]
  | cons y ys ih =>
    by_cases h : x.words < y.words
    · simp only [insertDesc, if_pos h]
      exact (ih.cons y).trans (List.Perm.swap x y ys)
    · simp [insertDesc, if_neg h]

theorem sortDesc_perm (l : List Entry) : (sortDesc l).Perm l := by
  induction l with
  | nil => simp [sortDesc]
  | cons x xs ih =>
    exact (insertDesc_perm x (sortDesc xs)).trans (ih.cons x)

theorem insertDesc_pairwise (x : Entry) (l : List Entry)
    (h : l.Pairwise (fun a b => b.words ≤ a.words)) :
    (insertDesc x l).Pairwise (fun a b => b.words ≤ a.words) := by
  induction l with
  | nil => simp [insertDesc]
  | cons y ys ih =>
    rcases List.pairwise_cons.mp h with ⟨hy, hys⟩
    by_cases hlt : x.words < y.words
    · simp only [insertDesc, if_pos hlt]
      refine List.pairwise_cons.mpr ⟨?_, ih hys⟩
      intro z hz
      have hz' := (insertDesc_perm x ys).mem_iff.mp hz
      rcases List.mem_cons.mp hz' with hz' | hz'
      · subst hz'
        exact le_of_lt hlt
      · exact hy z hz'
    · simp only [insertDesc, if_neg hlt]
      refine List.pairwise_cons.mpr ⟨?_, h⟩
      intro z hz
      rcases List.mem_cons.mp hz with hz | hz
      · subst hz
        exact le_of_not_lt hlt
      · exact le_trans (hy z hz) (le_of_not_lt hlt)

theorem sortDesc_pairwise (l : List Entry) :
    (sortDesc l).Pairwise (fun a b => b.words ≤ a.words) := by
  induction l with
  | nil => simp [sortDesc]
  | cons x xs ih => exact insertDesc_pairwise x (sortDesc xs) ih

theorem insertDesc_filter (x : Entry) (l : List Entry) (w : Int) :
    (insertDesc x l).filter (fun e => decide (e.words = w)) =
      (x :: l).filter (fun e => decide (e.words = w)) := by
  induction l with
  | nil => simp [insertDesc]
  | cons y ys ih =>
    by_cases hlt : x.words < y.words
    · simp only [insertDesc, if_pos hlt, ih, List.filter_cons]
      by_cases hx : x.words = w
      · have hy : ¬(y.words = w) := by
          intro hyw
          rw [hx] at hlt
          rw [hyw] at hlt
          exact lt_irrefl w hlt
        simp [hx, hy]
      · simp [hx]
    · simp [insertDesc, if_neg hlt]

theorem sortDesc_filter (l : List Entry) (w : Int) :
    (sortDesc l).filter (fun e => decide (e.words = w)) =
      l.filter (fun e => decide (e.words = w)) := by
  induction l with
  | nil => simp [sortDesc]
  | cons x xs ih =>
    rw [sortDesc, insertDesc_filter, List.filter_cons, List.filter_cons, ih]

theorem mkRates_filter (d : Int) (l : List Entry) (w : Int) :
    (mkRates d l).filter (fun e => decide (e.words = w)) =
      mkRates d (l.filter (fun e => decide (e.words = w))) := by
  induction l with
  | nil => simp [mkRates]
  | cons x xs ih =>
    by_cases hx : x.words = w
    · simp [mkRates, List.filter_cons, hx] at ih ⊢
      exact ih
    · simp [mkRates, List.filter_cons, hx] at ih ⊢
      exact ih

theorem sortDesc_length (l : List Entry) : (sortDesc l).length = l.length :=
  (sortDesc_perm l).length_eq

theorem dbDelete_groupId_ne (gid : String) (db : DB)
    (h : (db.map SprintSnapshot.groupId).Nodup) :
    ∀ d ∈ dbDelete gid db, d.groupId ≠ gid := by
  induction db with
  | nil => simp [dbDelete]
  | cons d0 rest ih =>
    rcases List.nodup_cons.mp h with ⟨h0, hrest⟩
    by_cases hg : d0.groupId = gid
    · simp only [dbDelete, if_pos hg]
      intro d hd hdg
      have hm : d.groupId ∈ rest.map SprintSnapshot.groupId := List.mem_map_of_mem _ hd
      rw [hdg, ← hg] at hm
      exact h0 hm
    · simp only [dbDelete, if_neg hg]
      intro d hd
      rcases List.mem_cons.mp hd with hd | hd
      · subst hd
        exact hg
      · exact ih hrest d hd

/-! ### C5: the finish leaderboard -/

/-- C5: `finish` on a sprint with at least one participant returns the
leaderboard obtained by the stable descending sort of the participants in
insertion order, each line carrying the rate `Math.round(words / duration)`:
the ranking is sorted by word count descending (`Pairwise`), ties keep
insertion order (filtering any fixed word count gives the same sequence as
the unsorted entries), it is a permutation of the entries, and every
displayed rate is the rounded words-per-minute value. -/
theorem c5_finish_leaderboard (mem : Store) (db : DB) (goals : Goals)
    (chatId : String) (s : Sprint) (hs : getAssoc chatId mem = some s)
    (hne : s.participants ≠ []) :
    (finishStep mem db goals chatId).outcome =
      .results (mkRates s.duration (sortDesc (baseEntries s)))
        ((sortDesc (baseEntries s)).map (fun e => e.uid)) ∧
    (mkRates s.duration (sortDesc (baseEntries s))).Pairwise
      (fun a b => b.words ≤ a.words) ∧
    (∀ w : Int,
      (mkRates s.duration (sortDesc (baseEntries s))).filter
          (fun e => decide (e.words = w)) =
        (mkRates s.duration (baseEntries s)).filter (fun e => decide (e.words = w))) ∧
    (mkRates s.duration (sortDesc (baseEntries s))).Perm
      (mkRates s.duration (baseEntries s)) ∧
    (∀ e ∈ mkRates s.duration (sortDesc (baseEntries s)),
      e.rate = jsRound e.words s.duration) := by
  have hbe : baseEntries s ≠ [] := by
    intro hcon
    exact hne (List.map_eq_nil_iff.mp hcon)
  have hl : sortDesc (baseEntries s) ≠ [] := by
    intro hcon
    have := sortDesc_length (baseEntries s)
    rw [hcon] at this
    exact hbe (List.length_eq_zero.mp this.symm)
  have hE : (sortDesc (baseEntries s)).isEmpty = false := by
    cases hcase : sortDesc (baseEntries s) with
    | nil => exact absurd hcase hl
    | cons a as => rfl
  refine ⟨?_, ?_, ?_, ?_, ?_⟩
  · simp [finishStep, hs, hE]
  · rw [mkRates, List.pairwise_map]
    exact sortDesc_pairwise _
  · intro w
    rw [mkRates_filter, mkRates_filter, sortDesc_filter]
  · simp only [mkRates]
    exact (sortDesc_perm _).map _
  · simp only [mkRates, List.mem_map]
    rintro e ⟨a, _, rfl⟩
    rfl

/-- Witness for C5 at the claimed instance: participants A:300, B:300, C:100
(in that insertion order), duration 10, give the order A, B, C with rates
30, 30, 10. -/
theorem c5_witness :
    mkRates 10 (sortDesc (baseEntries ⟨10, 600000,
        [("a@c.us", ⟨"A", 300⟩), ("b@c.us", ⟨"B", 300⟩), ("c@c.us", ⟨"C", 100⟩)]⟩)) =
      [⟨"a@c.us", "A", 300, 30⟩, ⟨"b@c.us", "B", 300, 30⟩, ⟨"c@c.us", "C", 100, 10⟩] ∧
    ((finishStep [("g@g.us", ⟨10, 600000,
        [("a@c.us", ⟨"A", 300⟩), ("b@c.us", ⟨"B", 300⟩), ("c@c.us", ⟨"C", 100⟩)]⟩)]
        [] [] "g@g.us").outcome =
      .results (mkRates 10 (sortDesc (baseEntries ⟨10, 600000,
          [("a@c.us", ⟨"A", 300⟩), ("b@c.us", ⟨"B", 300⟩), ("c@c.us", ⟨"C", 100⟩)]⟩)))
        ((sortDesc (baseEntries ⟨10, 600000,
          [("a@c.us", ⟨"A", 300⟩), ("b@c.us", ⟨"B", 300⟩), ("c@c.us", ⟨"C", 100⟩)]⟩)).map
          (fun e => e.uid)) ∧
      (mkRates 10 (sortDesc (baseEntries ⟨10, 600000,
          [("a@c.us", ⟨"A", 300⟩), ("b@c.us", ⟨"B", 300⟩), ("c@c.us", ⟨"C", 100⟩)]⟩))).Pairwise
        (fun a b => b.words ≤ a.words) ∧
      (∀ w : Int,
        (mkRates 10 (sortDesc (baseEntries ⟨10, 600000,
            [("a@c.us", ⟨"A", 300⟩), ("b@c.us", ⟨"B", 300⟩), ("c@c.us", ⟨"C", 100⟩)]⟩))).filter
            (fun e => decide (e.words = w)) =
          (mkRates 10 (baseEntries ⟨10, 600000,
            [("a@c.us", ⟨"A", 300⟩), ("b@c.us", ⟨"B", 300⟩), ("c@c.us", ⟨"C", 100⟩)]⟩)).filter
            (fun e => decide (e.words = w))) ∧
      (mkRates 10 (sortDesc (baseEntries ⟨10, 600000,
          [("a@c.us", ⟨"A", 300⟩), ("b@c.us", ⟨"B", 300⟩), ("c@c.us", ⟨"C", 100⟩)]⟩))).Perm
        (mkRates 10 (baseEntries ⟨10, 600000,
          [("a@c.us", ⟨"A", 300⟩), ("b@c.us", ⟨"B", 300⟩), ("c@c.us", ⟨"C", 100⟩)]⟩)) ∧
      (∀ e ∈ mkRates 10 (sortDesc (baseEntries ⟨10, 600000,
          [("a@c.us", ⟨"A", 300⟩), ("b@c.us", ⟨"B", 300⟩), ("c@c.us", ⟨"C", 100⟩)]⟩)),
        e.rate = jsRound e.words 10)) :=
  ⟨by decide,
    c5_finish_leaderboard [("g@g.us", ⟨10, 600000,
        [("a@c.us", ⟨"A", 300⟩), ("b@c.us", ⟨"B", 300⟩), ("c@c.us", ⟨"C", 100⟩)]⟩)]
      [] [] "g@g.us" ⟨10, 600000,
        [("a@c.us", ⟨"A", 300⟩), ("b@c.us", ⟨"B", 300⟩), ("c@c.us", ⟨"C", 100⟩)]⟩
      rfl (by decide)⟩

/-! ### C9: finish with zero participants -/

/-- C9: `finish` on a sprint with zero participants destroys the sprint —
the in-memory record is removed (lookup afterwards fails) and the durable
snapshot is deleted from the collection — writes no stat rows, touches no
goals, and returns the no-entries outcome. -/
theorem c9_finish_empty (mem : Store) (db : DB) (goals : Goals)
    (chatId : String) (s : Sprint) (hs : getAssoc chatId mem = some s)
    (hp : s.participants = []) (hmem : (mem.map Prod.fst).Nodup)
    (hdb : (db.map SprintSnapshot.groupId).Nodup) :
    finishStep mem db goals chatId =
      ⟨.empty, delAssoc chatId mem, dbDelete chatId db, goals, [], []⟩ ∧
    getAssoc chatId (delAssoc chatId mem) = none ∧
    (∀ d ∈ dbDelete chatId db, d.groupId ≠ chatId) := by
  refine ⟨?_, getAssoc_delAssoc_self chatId mem hmem, dbDelete_groupId_ne chatId db hdb⟩
  simp [finishStep, hs, baseEntries, hp, sortDesc]

/-- Witness for C9: a sprint with no participants, finished, yields the
empty outcome with no stat writes and both records gone. -/
theorem c9_witness :
    finishStep [("g@g.us", Sprint.mk 10 600000 [])]
        ([SprintSnapshot.mk "g@g.us" 10 600000 []] : DB) [] "g@g.us" =
      ⟨.empty, delAssoc "g@g.us" [("g@g.us", Sprint.mk 10 600000 [])],
        dbDelete "g@g.us" ([SprintSnapshot.mk "g@g.us" 10 600000 []] : DB), [], [], []⟩ ∧
    getAssoc "g@g.us" (delAssoc "g@g.us" [("g@g.us", Sprint.mk 10 600000 [])]) = none ∧
    (∀ d ∈ dbDelete "g@g.us" ([SprintSnapshot.mk "g@g.us" 10 600000 []] : DB),
      d.groupId ≠ "g@g.us") :=
  c9_finish_empty [("g@g.us", Sprint.mk 10 600000 [])]
    ([SprintSnapshot.mk "g@g.us" 10 600000 []] : DB) []
    "g@g.us" (Sprint.mk 10 600000 []) rfl rfl (by decide) (by decide)

/-! ### C6: goal completion is one-way and announced once -/

theorem goalApply_inactive (g : Goal) (w : Int) (h : g.isActive = false) :
    goalApply g w = (g, false) := by
  simp [goalApply, h]

theorem goalRun_inactive (g : Goal) (ws : List Int) (h : g.isActive = false) :
    goalRun g ws = (g, 0) := by
  induction ws with
  | nil => rfl
  | cons w ws ih => simp [goalRun, goalApply_inactive g w h, ih]

theorem goalRun_spec (g : Goal) (ws : List Int) (h : g.isActive = true) :
    (goalRun g ws).2 ≤ 1 ∧
    ((goalRun g ws).2 = 1 ↔ (goalRun g ws).1.isActive = false) ∧
    ((goalRun g ws).1.isActive = false ↔
      ∃ n, n < ws.length ∧ g.target ≤ g.current + (ws.take (n + 1)).sum) ∧
    (goalRun g ws).1.target = g.target := by
  induction ws generalizing g with
  | nil =>
    refine ⟨by simp [goalRun], ?_, ?_, rfl⟩
    · simp [goalRun, h]
    · simp [goalRun, h]
  | cons w ws ih =>
    by_cases hc : g.target ≤ g.current + w
    · have hga : goalApply g w = (⟨g.target, g.current + w, false⟩, true) := by
        simp [goalApply, h, hc]
      have hrest : goalRun (⟨g.target, g.current + w, false⟩ : Goal) ws =
          ((⟨g.target, g.current + w, false⟩ : Goal), 0) :=
        goalRun_inactive _ ws rfl
      have hrun : goalRun g (w :: ws) = (⟨g.target, g.current + w, false⟩, 1) := by
        simp [goalRun, hga, hrest]
      rw [hrun]
      refine ⟨le_refl 1, by simp, ?_, rfl⟩
      constructor
      · intro _
        refine ⟨0, by simp, ?_⟩
        simpa using hc
      · intro _
        rfl
    · have hga : goalApply g w = (⟨g.target, g.current + w, true⟩, false) := by
        simp [goalApply, h, hc]
      have h1 : (goalRun g (w :: ws)).1 =
          (goalRun (⟨g.target, g.current + w, true⟩ : Goal) ws).1 := by
        simp [goalRun, hga]
      have h2 : (goalRun g (w :: ws)).2 =
          (goalRun (⟨g.target, g.current + w, true⟩ : Goal) ws).2 := by
        simp [goalRun, hga]
      obtain ⟨ih1, ih2, ih3, ih4⟩ := ih (⟨g.target, g.current + w, true⟩ : Goal) rfl
      rw [h1, h2]
      refine ⟨ih1, ih2, ?_, ih4⟩
      rw [ih3]
      constructor
      · rintro ⟨n, hn, hsum⟩
        refine ⟨n + 1, by simpa using Nat.succ_lt_succ hn, ?_⟩
        rw [List.take_succ_cons, List.sum_cons]
        have harr : g.current + (w + (ws.take (n + 1)).sum) =
            g.current + w + (ws.take (n + 1)).sum := by ring
        rw [harr]
        exact hsum
      · rintro ⟨n, hn, hsum⟩
        cases n with
        | zero =>
          exfalso
          apply hc
          simpa using hsum
        | succ m =>
          refine ⟨m, by simpa using Nat.lt_of_succ_lt_succ hn, ?_⟩
          rw [List.take_succ_cons, List.sum_cons] at hsum
          have harr : g.current + (w + (ws.take (m + 1)).sum) =
              g.current + w + (ws.take (m + 1)).sum := by ring
          rw [harr] at hsum
          exact hsum

/-- C6: for a participant whose goal is active, over any sequence of sprint
contributions the completion announcement is emitted at most once; it is
emitted exactly once precisely when the goal ends up inactive; the goal ends
up inactive exactly when some prefix of the contributions first brings
`current` up to `target` (so the flip happens at the first such operation);
the target never changes; and once inactive, any further contributions leave
the goal untouched and announce nothing (never again). -/
theorem c6_goal_flips_once (g : Goal) (ws : List Int) (h : g.isActive = true) :
    (goalRun g ws).2 ≤ 1 ∧
    ((goalRun g ws).2 = 1 ↔ (goalRun g ws).1.isActive = false) ∧
    ((goalRun g ws).1.isActive = false ↔
      ∃ n, n < ws.length ∧ g.target ≤ g.current + (ws.take (n + 1)).sum) ∧
    (goalRun g ws).1.target = g.target ∧
    ∀ ws2, (goalRun g ws).1.isActive = false →
      goalRun (goalRun g ws).1 ws2 = ((goalRun g ws).1, 0) := by
  obtain ⟨h1, h2, h3, h4⟩ := goalRun_spec g ws h
  exact ⟨h1, h2, h3, h4, fun ws2 hin => goalRun_inactive _ ws2 hin⟩

/-- Witness for C6 at the claimed instance: target 1000, two sprints of 600
each — after the first, current is 600, the goal is active and nothing was
announced; after the second, current is 1200, the goal is inactive and the
announcement was emitted exactly once. -/
theorem c6_witness :
    goalRun ⟨1000, 0, true⟩ [600] = (⟨1000, 600, true⟩, 0) ∧
    goalRun ⟨1000, 0, true⟩ [600, 600] = (⟨1000, 1200, false⟩, 1) ∧
    ((goalRun ⟨1000, 0, true⟩ [600, 600]).2 ≤ 1 ∧
     ((goalRun ⟨1000, 0, true⟩ [600, 600]).2 = 1 ↔
       (goalRun ⟨1000, 0, true⟩ [600, 600]).1.isActive = false) ∧
     ((goalRun ⟨1000, 0, true⟩ [600, 600]).1.isActive = false ↔
       ∃ n, n < ([600, 600] : List Int).length ∧
         (1000 : Int) ≤ 0 + (([600, 600] : List Int).take (n + 1)).sum) ∧
     (goalRun ⟨1000, 0, true⟩ [600, 600]).1.target = 1000 ∧
     ∀ ws2, (goalRun ⟨1000, 0, true⟩ [600, 600]).1.isActive = false →
       goalRun (goalRun ⟨1000, 0, true⟩ [600, 600]).1 ws2 =
         ((goalRun ⟨1000, 0, true⟩ [600, 600]).1, 0)) :=
  ⟨by decide, by decide, c6_goal_flips_once ⟨1000, 0, true⟩ [600, 600] rfl⟩

/-! ### C7: startup restore -/

theorem restoreFold_lookup_ne (now : Int) (g : String) (d : SprintSnapshot)
    (m : Store) (hne : d.groupId ≠ g) :
    getAssoc g (restoreFold now m d) = getAssoc g m := by
  unfold restoreFold
  split
  · exact getAssoc_setAssoc_ne _ _ _ _ hne
  · rfl

theorem restore_foldl_frame (now : Int) (g : String) :
    ∀ (db : DB) (m : Store), (∀ d ∈ db, d.groupId ≠ g) →
      getAssoc g (db.foldl (restoreFold now) m) = getAssoc g m := by
  intro db
  induction db with
  | nil => intro m _; rfl
  | cons d0 rest ih =>
    intro m h
    rw [List.foldl_cons]
    rw [ih _ (fun d' hd' => h d' (List.mem_cons_of_mem _ hd'))]
    exact restoreFold_lookup_ne now g d0 m (h d0 (List.mem_cons_self _ _))

theorem restore_foldl_future (now : Int) (d : SprintSnapshot) (hf : now < d.endsAt) :
    ∀ (db : DB) (m : Store), (db.map SprintSnapshot.groupId).Nodup → d ∈ db →
      getAssoc d.groupId (db.foldl (restoreFold now) m) =
        some ⟨d.duration, d.endsAt, d.participants⟩ := by
  intro db
  induction db with
  | nil => intro m _ hd; exact absurd hd (List.not_mem_nil d)
  | cons d0 rest ih =>
    intro m hnd hd
    rcases List.nodup_cons.mp hnd with ⟨h0, hrest⟩
    rw [List.foldl_cons]
    rcases List.mem_cons.mp hd with hd | hd
    · subst hd
      have hner : ∀ d' ∈ rest, d'.groupId ≠ d.groupId := by
        intro d' hd' he
        exact h0 (he ▸ List.mem_map_of_mem _ hd')
      rw [restore_foldl_frame now d.groupId rest _ hner]
      unfold restoreFold
      rw [if_pos hf]
      exact getAssoc_setAssoc_self _ _ _
    · exact ih _ hrest hd

theorem restore_foldl_none (now : Int) (g : String) :
    ∀ (db : DB) (m : Store), (∀ d ∈ db, d.groupId = g → ¬(now < d.endsAt)) →
      getAssoc g m = none → getAssoc g (db.foldl (restoreFold now) m) = none := by
  intro db
  induction db with
  | nil => intro m _ hm; exact hm
  | cons d0 rest ih =>
    intro m h hm
    rw [List.foldl_cons]
    refine ih _ (fun d hd hg => h d (List.mem_cons_of_mem _ hd) hg) ?_
    unfold restoreFold
    split
    · rename_i hfut
      have hne : d0.groupId ≠ g := fun he => h d0 (List.mem_cons_self _ _) he hfut
      rw [getAssoc_setAssoc_ne _ _ _ _ hne]
      exact hm
    · exact hm

/-- C7: `restore()` at startup, over the durable snapshot collection:
(a) exactly the snapshots whose `endsAt` is still in the future remain in the
collection (the expired ones are deleted); (b) every future snapshot is
rehydrated into memory with its duration, end time and participants, gets a
timer armed for the remaining `endsAt - now`, and the rehydrated sprint
accepts further `logWords` in either mode; (c) every expired snapshot is
removed from the collection, is not rehydrated (its room stays idle), and no
timer is armed for its room — so nothing is ever sent for it. -/
theorem c7_restore (now : Int) (db : DB)
    (hnd : (db.map SprintSnapshot.groupId).Nodup) :
    (restoreStep now db).2.1 = db.filter (fun d => decide (now < d.endsAt)) ∧
    (∀ d ∈ db, now < d.endsAt →
      getAssoc d.groupId (restoreStep now db).1 =
        some ⟨d.duration, d.endsAt, d.participants⟩ ∧
      (d.groupId, d.endsAt - now) ∈ (restoreStep now db).2.2 ∧
      (∀ (p nm : String) (c : Int) (add : Bool), ∃ w,
        (wcStep (restoreStep now db).1 (restoreStep now db).2.1 d.groupId p nm
          (some c) add).1 = .logged w add)) ∧
    (∀ d ∈ db, ¬(now < d.endsAt) →
      d ∉ (restoreStep now db).2.1 ∧
      getAssoc d.groupId (restoreStep now db).1 = none ∧
      ∀ delay : Int, (d.groupId, delay) ∉ (restoreStep now db).2.2) := by
  refine ⟨rfl, ?_, ?_⟩
  · intro d hd hf
    have hmem : getAssoc d.groupId (restoreStep now db).1 =
        some ⟨d.duration, d.endsAt, d.participants⟩ :=
      restore_foldl_future now d hf db [] hnd hd
    refine ⟨hmem, ?_, ?_⟩
    · refine List.mem_map_of_mem _ ?_
      exact List.mem_filter.mpr ⟨hd, by simpa using hf⟩
    · intro p nm c add
      refine ⟨if add
          then ((getAssoc p (Sprint.mk d.duration d.endsAt d.participants).participants).getD
            ⟨nm, 0⟩).words + c
          else c, ?_⟩
      rw [wcStep_spec _ _ _ _ _ _ _ _ hmem]
  · intro d hd hexp
    refine ⟨?_, ?_, ?_⟩
    · intro hcon
      exact hexp (by simpa using (List.mem_filter.mp hcon).2)
    · refine restore_foldl_none now d.groupId db [] ?_ rfl
      intro d' hd' hg hfut
      have hdd : d' = d := List.inj_on_of_nodup_map hnd hd' hd hg
      subst hdd
      exact hexp hfut
    · intro delay hcon
      rcases List.mem_map.mp hcon with ⟨d', hd', heq⟩
      have hd'db := (List.mem_filter.mp hd').1
      have hfut : now < d'.endsAt := by simpa using (List.mem_filter.mp hd').2
      have hg : d'.groupId = d.groupId := congrArg Prod.fst heq
      have hdd : d' = d := List.inj_on_of_nodup_map hnd hd'db hd hg
      subst hdd
      exact hexp hfut

/-- Witness for C7 at the claimed instance: a snapshot ending 5 minutes in
the future of the restart instant is rehydrated (and accepts `logWords`),
while a snapshot whose end has passed is deleted without rehydration. -/
theorem c7_witness :
    (restoreStep 1000 ([⟨"r1", 5, 301000, [("p@c.us", ⟨"P", 7⟩)]⟩,
        ⟨"r2", 5, 900, []⟩] : DB)).2.1 =
      ([⟨"r1", 5, 301000, [("p@c.us", ⟨"P", 7⟩)]⟩,
        ⟨"r2", 5, 900, []⟩] : DB).filter (fun d => decide ((1000 : Int) < d.endsAt)) ∧
    (∀ d ∈ ([⟨"r1", 5, 301000, [("p@c.us", ⟨"P", 7⟩)]⟩,
        ⟨"r2", 5, 900, []⟩] : DB), (1000 : Int) < d.endsAt →
      getAssoc d.groupId (restoreStep 1000 ([⟨"r1", 5, 301000, [("p@c.us", ⟨"P", 7⟩)]⟩,
          ⟨"r2", 5, 900, []⟩] : DB)).1 =
        some ⟨d.duration, d.endsAt, d.participants⟩ ∧
      (d.groupId, d.endsAt - 1000) ∈ (restoreStep 1000 ([⟨"r1", 5, 301000,
          [("p@c.us", ⟨"P", 7⟩)]⟩, ⟨"r2", 5, 900, []⟩] : DB)).2.2 ∧
      (∀ (p nm : String) (c : Int) (add : Bool), ∃ w,
        (wcStep (restoreStep 1000 ([⟨"r1", 5, 301000, [("p@c.us", ⟨"P", 7⟩)]⟩,
            ⟨"r2", 5, 900, []⟩] : DB)).1
          (restoreStep 1000 ([⟨"r1", 5, 301000, [("p@c.us", ⟨"P", 7⟩)]⟩,
            ⟨"r2", 5, 900, []⟩] : DB)).2.1 d.groupId p nm (some c) add).1 =
          .logged w add)) ∧
    (∀ d ∈ ([⟨"r1", 5, 301000, [("p@c.us", ⟨"P", 7⟩)]⟩,
        ⟨"r2", 5, 900, []⟩] : DB), ¬((1000 : Int) < d.endsAt) →
      d ∉ (restoreStep 1000 ([⟨"r1", 5, 301000, [("p@c.us", ⟨"P", 7⟩)]⟩,
          ⟨"r2", 5, 900, []⟩] : DB)).2.1 ∧
      getAssoc d.groupId (restoreStep 1000 ([⟨"r1", 5, 301000, [("p@c.us", ⟨"P", 7⟩)]⟩,
          ⟨"r2", 5, 900, []⟩] : DB)).1 = none ∧
      ∀ delay : Int, (d.groupId, delay) ∉ (restoreStep 1000 ([⟨"r1", 5, 301000,
          [("p@c.us", ⟨"P", 7⟩)]⟩, ⟨"r2", 5, 900, []⟩] : DB)).2.2) :=
  c7_restore 1000 ([⟨"r1", 5, 301000, [("p@c.us", ⟨"P", 7⟩)]⟩,
    ⟨"r2", 5, 900, []⟩] : DB) (by decide)

/-! ### C8: the scheduler sweep -/

theorem startSprintSession_frame (now : Int) (mem : Store) (db : DB) (gid : String)
    (dur : Int) (g : String) (s : Sprint) (hg : getAssoc g mem = some s) :
    getAssoc g (startSprintSession now mem db gid dur).mem = some s := by
  cases hc : getAssoc gid mem with
  | some s2 => simpa [startSprintSession, hc] using hg
  | none =>
    have hne : gid ≠ g := by
      intro he
      rw [he, hg] at hc
      exact Option.noConfusion hc
    simp only [startSprintSession, hc]
    rw [getAssoc_setAssoc_ne _ _ _ _ hne]
    exact hg

theorem startSprintSession_nodup (now : Int) (mem : Store) (db : DB) (gid : String)
    (dur : Int) (h : (mem.map Prod.fst).Nodup) :
    ((startSprintSession now mem db gid dur).mem.map Prod.fst).Nodup := by
  cases hc : getAssoc gid mem with
  | some s2 => simpa [startSprintSession, hc] using h
  | none =>
    simp only [startSprintSession, hc]
    exact setAssoc_keys_nodup _ _ _ h

theorem sweepDue_frame (now : Int) (g : String) (s : Sprint) :
    ∀ (rows : List Sched) (mem : Store) (db : DB), getAssoc g mem = some s →
      getAssoc g (sweepDue now rows mem db).1 = some s := by
  intro rows
  induction rows with
  | nil => intro mem db h; exact h
  | cons r rest ih =>
    intro mem db h
    simp only [sweepDue]
    exact ih _ _ (startSprintSession_frame now mem db r.groupId r.duration g s h)

theorem sweepDue_nodup (now : Int) :
    ∀ (rows : List Sched) (mem : Store) (db : DB), (mem.map Prod.fst).Nodup →
      ((sweepDue now rows mem db).1.map Prod.fst).Nodup := by
  intro rows
  induction rows with
  | nil => intro mem db h; exact h
  | cons r rest ih =>
    intro mem db h
    simp only [sweepDue]
    exact ih _ _ (startSprintSession_nodup now mem db r.groupId r.duration h)

theorem sweepDue_skip (now : Int) (g : String) (s : Sprint) :
    ∀ (rows : List Sched) (mem : Store) (db : DB), getAssoc g mem = some s →
      ∀ r ∈ rows, r.groupId = g →
        SweepEvent.skipped g ∈ (sweepDue now rows mem db).2.2 := by
  intro rows
  induction rows with
  | nil =>
    intro mem db _ r hr
    exact absurd hr (List.not_mem_nil r)
  | cons r0 rest ih =>
    intro mem db h r hr hg
    rcases List.mem_cons.mp hr with he | hr'
    · subst he
      have hss : startSprintSession now mem db g r.duration =
          ⟨false, mem, db, []⟩ := by
        simp [startSprintSession, h]
      simp [sweepDue, hg, hss]
    · simp only [sweepDue]
      refine List.mem_cons_of_mem _ ?_
      exact ih _ _ (startSprintSession_frame now mem db r0.groupId r0.duration g s h)
        r hr' hg

theorem sweepDue_event (now : Int) :
    ∀ (rows : List Sched) (mem : Store) (db : DB) (r : Sched), r ∈ rows →
      SweepEvent.skipped r.groupId ∈ (sweepDue now rows mem db).2.2 ∨
      SweepEvent.started r.groupId r.createdBy ∈ (sweepDue now rows mem db).2.2 := by
  intro rows
  induction rows with
  | nil =>
    intro mem db r hr
    exact absurd hr (List.not_mem_nil r)
  | cons r0 rest ih =>
    intro mem db r hr
    rcases List.mem_cons.mp hr with he | hr'
    · subst he
      cases hb : (startSprintSession now mem db r.groupId r.duration).started with
      | false =>
        left
        simp only [sweepDue, hb]
        exact List.mem_cons_self _ _
      | true =>
        right
        simp only [sweepDue, hb]
        exact List.mem_cons_self _ _
    · rcases ih (startSprintSession now mem db r0.groupId r0.duration).mem
        (startSprintSession now mem db r0.groupId r0.duration).db r hr' with hcase | hcase
      · left
        simp only [sweepDue]
        exact List.mem_cons_of_mem _ hcase
      · right
        simp only [sweepDue]
        exact List.mem_cons_of_mem _ hcase

/-- C8: one pass of the scheduler sweep: (a) exactly the rows not yet due
survive — every due row is deleted whether it started or was skipped, so a
trigger fires at most once; (b) a sprint already running in any room is still
there, unchanged, afterwards — the sweep never creates a second concurrent
sprint; (c) the room-to-sprint map still has at most one entry per room;
(d) every due row produced a notification, either started or skipped; and
(e) a due row whose room already had a running sprint produced the skipped
notification. -/
theorem c8_scheduler_sweep (now : Int) (mem : Store) (db : DB) (rows : List Sched)
    (hnd : (mem.map Prod.fst).Nodup) :
    (sweepStep now mem db rows).2.2.1 =
      rows.filter (fun r => decide (now < r.startAt)) ∧
    (∀ (g : String) (s : Sprint), getAssoc g mem = some s →
      getAssoc g (sweepStep now mem db rows).1 = some s) ∧
    ((sweepStep now mem db rows).1.map Prod.fst).Nodup ∧
    (∀ r ∈ rows, r.startAt ≤ now →
      SweepEvent.skipped r.groupId ∈ (sweepStep now mem db rows).2.2.2 ∨
      SweepEvent.started r.groupId r.createdBy ∈ (sweepStep now mem db rows).2.2.2) ∧
    (∀ r ∈ rows, r.startAt ≤ now → ∀ s : Sprint, getAssoc r.groupId mem = some s →
      SweepEvent.skipped r.groupId ∈ (sweepStep now mem db rows).2.2.2) := by
  refine ⟨rfl, ?_, ?_, ?_, ?_⟩
  · intro g s hg
    exact sweepDue_frame now g s _ mem db hg
  · exact sweepDue_nodup now _ mem db hnd
  · intro r hr hdue
    exact sweepDue_event now _ mem db r
      (List.mem_filter.mpr ⟨hr, by simpa using hdue⟩)
  · intro r hr hdue s hg
    exact sweepDue_skip now r.groupId s _ mem db hg r
      (List.mem_filter.mpr ⟨hr, by simpa using hdue⟩) rfl

/-- Witness for C8 at the claimed instance: at time 100, a due row for a room
with a running sprint is deleted and yields the skipped notice while the
sprint survives unchanged; a due row for an idle room starts; a not-yet-due
row survives. -/
theorem c8_witness :
    sweepStep 100 [("g@g.us", ⟨20, 99999, []⟩)] []
        [⟨"g@g.us", 50, 15, "u@c.us"⟩, ⟨"h@g.us", 50, 10, "v@c.us"⟩,
          ⟨"i@g.us", 500, 10, "w@c.us"⟩] =
      ([("g@g.us", ⟨20, 99999, []⟩), ("h@g.us", ⟨10, 600100, []⟩)],
        [⟨"h@g.us", 10, 600100, []⟩],
        [⟨"i@g.us", 500, 10, "w@c.us"⟩],
        [.skipped "g@g.us", .started "h@g.us" "v@c.us"]) ∧
    ((sweepStep 100 [("g@g.us", ⟨20, 99999, []⟩)] []
        [⟨"g@g.us", 50, 15, "u@c.us"⟩, ⟨"h@g.us", 50, 10, "v@c.us"⟩,
          ⟨"i@g.us", 500, 10, "w@c.us"⟩]).2.2.1 =
      ([⟨"g@g.us", 50, 15, "u@c.us"⟩, ⟨"h@g.us", 50, 10, "v@c.us"⟩,
          ⟨"i@g.us", 500, 10, "w@c.us"⟩] : List Sched).filter
        (fun r => decide ((100 : Int) < r.startAt)) ∧
    (∀ (g : String) (s : Sprint), getAssoc g [("g@g.us", ⟨20, 99999, []⟩)] = some s →
      getAssoc g (sweepStep 100 [("g@g.us", ⟨20, 99999, []⟩)] []
          [⟨"g@g.us", 50, 15, "u@c.us"⟩, ⟨"h@g.us", 50, 10, "v@c.us"⟩,
            ⟨"i@g.us", 500, 10, "w@c.us"⟩]).1 = some s) ∧
    ((sweepStep 100 [("g@g.us", ⟨20, 99999, []⟩)] []
        [⟨"g@g.us", 50, 15, "u@c.us"⟩, ⟨"h@g.us", 50, 10, "v@c.us"⟩,
          ⟨"i@g.us", 500, 10, "w@c.us"⟩]).1.map Prod.fst).Nodup ∧
    (∀ r ∈ ([⟨"g@g.us", 50, 15, "u@c.us"⟩, ⟨"h@g.us", 50, 10, "v@c.us"⟩,
          ⟨"i@g.us", 500, 10, "w@c.us"⟩] : List Sched), r.startAt ≤ (100 : Int) →
      SweepEvent.skipped r.groupId ∈ (sweepStep 100 [("g@g.us", ⟨20, 99999, []⟩)] []
          [⟨"g@g.us", 50, 15, "u@c.us"⟩, ⟨"h@g.us", 50, 10, "v@c.us"⟩,
            ⟨"i@g.us", 500, 10, "w@c.us"⟩]).2.2.2 ∨
      SweepEvent.started r.groupId r.createdBy ∈
        (sweepStep 100 [("g@g.us", ⟨20, 99999, []⟩)] []
          [⟨"g@g.us", 50, 15, "u@c.us"⟩, ⟨"h@g.us", 50, 10, "v@c.us"⟩,
            ⟨"i@g.us", 500, 10, "w@c.us"⟩]).2.2.2) ∧
    (∀ r ∈ ([⟨"g@g.us", 50, 15, "u@c.us"⟩, ⟨"h@g.us", 50, 10, "v@c.us"⟩,
          ⟨"i@g.us", 500, 10, "w@c.us"⟩] : List Sched), r.startAt ≤ (100 : Int) →
      ∀ s : Sprint, getAssoc r.groupId [("g@g.us", ⟨20, 99999, []⟩)] = some s →
        SweepEvent.skipped r.groupId ∈ (sweepStep 100 [("g@g.us", ⟨20, 99999, []⟩)] []
          [⟨"g@g.us", 50, 15, "u@c.us"⟩, ⟨"h@g.us", 50, 10, "v@c.us"⟩,
            ⟨"i@g.us", 500, 10, "w@c.us"⟩]).2.2.2)) :=
  ⟨by decide,
    c8_scheduler_sweep 100 [("g@g.us", ⟨20, 99999, []⟩)] []
      [⟨"g@g.us", 50, 15, "u@c.us"⟩, ⟨"h@g.us", 50, 10, "v@c.us"⟩,
        ⟨"i@g.us", 500, 10, "w@c.us"⟩] (by decide)⟩

/-! ### C4: admin authorization -/

/-- C4 (counterexample): admin authorization is `senderId.includes(OWNER_NUMBER)`,
a substring test on the raw sender id, not a match against the configured
owner identifier: the sender `12347087899166@c.us` — a different id from the
owner number and from the owner's own full id — is treated as owner, so its
`ban` command changes state (the target lands on the blacklist) and gets an
admin reply, refuting "admin commands have an effect only for the matching
owner and change no state for every other sender". -/
theorem c4_counterexample :
    isOwnerSender "12347087899166@c.us" = true ∧
    "12347087899166@c.us" ≠ ownerNumber ∧
    "12347087899166@c.us" ≠ ownerNumber ++ "@c.us" ∧
    adminStep "12347087899166@c.us" [] (.ban (some "victim@c.us")) =
      ⟨true, ["victim@c.us"], [], ["Banned."]⟩ := by
  decide

/-- C4 (amended): an admin command has an effect only if the sender id
contains the configured owner number as a substring; for every sender whose
id does not contain it, every admin command leaves all state unchanged and
produces no reply — it is silently ignored. -/
theorem c4_amended_substring_gate (senderId : String) (blacklist : List String)
    (cmd : AdminCmd) (h : strIncludes senderId ownerNumber = false) :
    adminStep senderId blacklist cmd = ⟨false, blacklist, [], []⟩ := by
  simp [adminStep, isOwnerSender, h]

/-- Witness for C4 (amended): a sender whose id does not contain the owner
number gets nothing from `ban`: no state change, no reply. -/
theorem c4_amended_witness :
    adminStep "15550001111@c.us" ["b@c.us"] (.ban (some "x@c.us")) =
      ⟨false, ["b@c.us"], [], []⟩ :=
  c4_amended_substring_gate "15550001111@c.us" ["b@c.us"] (.ban (some "x@c.us"))
    (by decide)

end SprintBot
